import Mathlib

/-
Verification of the wasm task-handle layer of n0-future (src/task.rs) and the
MaybeFuture combinator (src/maybe_future.rs), as a shallow embedding in Lean.

Rust interior mutability (Rc<RefCell<...>>) is modelled by explicit state
passing: each operation takes the shared cells it borrows and returns their
updated values.  Wakers are modelled as opaque identifiers (Nat); waking is
modelled by returning the list of woken waker identifiers.  Poll::{Ready,
Pending} is modelled by an explicit Poll inductive.
-/

namespace N0F

/-- Mirror of std::task::Poll. -/
inductive Poll (α : Type) where
  | Ready (a : α)
  | Pending
deriving DecidableEq, Repr

/-- Mirror of JoinErrorReason in task.rs: the only variant is Cancelled. -/
inductive JoinErrorReason where
  | Cancelled
deriving DecidableEq, Repr

/-- Mirror of the JoinError struct in task.rs: a reason and the task id. -/
structure JoinError where
  reason : JoinErrorReason
  id : Nat
deriving DecidableEq, Repr

/-- Mirror of the shared State struct in task.rs.  The two waker slots hold
opaque waker identifiers. -/
structure State where
  id : Nat
  cancelled : Bool
  completed : Bool
  waker_handler : Option Nat
  waker_spawn_fn : Option Nat
deriving DecidableEq, Repr

/-- Mirror of State::wake: take each registered waker (leaving None) and wake
it.  The second component is the list of woken waker identifiers, in the order
the source wakes them (handler first, then spawn-fn). -/
def State.wake (s : State) : State × List Nat :=
  let p1 : State × List Nat :=
    match s.waker_handler with
    | some w => ({ s with waker_handler := none }, [w])
    | none => (s, [])
  match p1.1.waker_spawn_fn with
  | some w => ({ p1.1 with waker_spawn_fn := none }, p1.2 ++ [w])
  | none => (p1.1, p1.2)

/-- Mirror of State::cancel: if not already cancelled, set cancelled and wake
both registered wakers; otherwise do nothing. -/
def State.cancel (s : State) : State × List Nat :=
  if s.cancelled then (s, [])
  else State.wake { s with cancelled := true }

/-- Mirror of State::complete: set completed and wake. -/
def State.complete (s : State) : State × List Nat :=
  State.wake { s with completed := true }

/-- Mirror of State::is_complete: completed || cancelled. -/
def State.is_complete (s : State) : Bool :=
  s.completed || s.cancelled

/-- Mirror of State::register_handler: store the caller's waker in the
waker_handler slot (clone_from and fresh clone agree on the result). -/
def State.register_handler (s : State) (w : Nat) : State :=
  { s with waker_handler := some w }

/-- Mirror of State::register_spawn_fn: store the driver's waker in the
waker_spawn_fn slot. -/
def State.register_spawn_fn (s : State) (w : Nat) : State :=
  { s with waker_spawn_fn := some w }

/-- Number of values a u64 can hold; the TASK_ID_COUNTER is a u64. -/
def U64_CARD : Nat := 2 ^ 64

/-- Mirror of next_task_id: increment the global counter and return it.  The
increment is u64 addition, which panics on overflow rather than returning a
wrong id; a panic is modelled as none. -/
def next_task_id (counter : Nat) : Option (Nat × Nat) :=
  if counter + 1 < U64_CARD then some (counter + 1, counter + 1) else none

/-- The State built by JoinHandle::new for a freshly allocated id. -/
def freshState (i : Nat) : State :=
  { id := i, cancelled := false, completed := false,
    waker_handler := none, waker_spawn_fn := none }

/-- Mirror of JoinHandle::new: allocate the next task id and build the fresh
shared State (the fresh ResultSlot starts empty and is passed separately).
Returns the updated counter and the new state, or none if id allocation
panicked. -/
def JoinHandle.new (counter : Nat) : Option (Nat × State) :=
  (next_task_id counter).map fun p => (p.1, freshState p.2)

/-- The sequence of task ids returned by n consecutive spawns (each spawn,
via spawn() or JoinSet::spawn, calls JoinHandle::new exactly once), starting
from a given counter value; none if any allocation panicked. -/
def spawnIds (counter : Nat) : Nat → Option (List Nat)
  | 0 => some []
  | n + 1 =>
    match JoinHandle.new counter with
    | none => none
    | some (c', st) => (spawnIds c' n).map fun ids => st.id :: ids

section Polling

variable {T F : Type}

/-- Mirror of `impl Future for JoinHandle`::poll.  Takes the shared state and
the shared result slot plus the caller's waker; returns the poll outcome and
the updated state and slot. -/
def JoinHandle.poll (s : State) (slot : Option T) (w : Nat) :
    Poll (Except JoinError T) × State × Option T :=
  if s.cancelled then
    (Poll.Ready (Except.error { reason := JoinErrorReason.Cancelled, id := s.id }),
     s, slot)
  else
    match slot with
    | some v => (Poll.Ready (Except.ok v), s, none)
    | none => (Poll.Pending, s.register_handler w, none)

/-- Mirror of JoinHandle::abort: cancel the shared state. -/
def JoinHandle.abort (s : State) : State × List Nat :=
  State.cancel s

/-- Mirror of JoinHandle::is_finished. -/
def JoinHandle.is_finished (s : State) : Bool :=
  s.is_complete

/-- Mirror of JoinHandle::is_running. -/
def JoinHandle.is_running (s : State) : Bool :=
  !(JoinHandle.is_finished s)

/-- Mirror of AbortHandle::abort: cancel the shared state. -/
def AbortHandle.abort (s : State) : State × List Nat :=
  State.cancel s

/-- Mirror of AbortHandle::is_finished: cancelled AND completed. -/
def AbortHandle.is_finished (s : State) : Bool :=
  s.cancelled && s.completed

/-- Mirror of `impl Future for SpawnFuture`::poll (the Driver).  `pf` is the
poll function of the wrapped unit of work: it maps the work's state to its
next state and an optional produced value (some = Ready).  Returns the
driver's poll outcome, the work's state, the shared State and the shared
result slot. -/
def SpawnFuture.poll (pf : F → F × Option T) (f : F) (s : State)
    (slot : Option T) (w : Nat) : Poll Unit × F × State × Option T :=
  if s.cancelled then (Poll.Ready (), f, s, slot)
  else
    match pf f with
    | (f', some v) => (Poll.Ready (), f', (State.complete s).1, some v)
    | (f', none) => (Poll.Pending, f', s.register_spawn_fn w, slot)

/-- Mirror of the PinnedDrop impl for AbortOnDropHandle: the drop body is a
single call to JoinHandle::abort on the wrapped handle. -/
def AbortOnDropHandle.onDrop (s : State) : State × List Nat :=
  JoinHandle.abort s

/-- A JoinHandle as stored inside a JoinSet: its shared State together with
its shared result slot. -/
abbrev Handle (T : Type) := State × Option T

/-- Mirror of `impl Future for JoinHandleWithId`::poll: poll the inner
JoinHandle and tag a success with the task id. -/
def JoinHandleWithId.poll (w : Nat) (h : Handle T) :
    Poll (Except JoinError (Nat × T)) × Handle T :=
  match JoinHandle.poll h.1 h.2 w with
  | (Poll.Ready out, s', slot') => (Poll.Ready (out.map fun v => (s'.id, v)), (s', slot'))
  | (Poll.Pending, s', slot') => (Poll.Pending, (s', slot'))

/-- Model of FuturesUnordered::poll_next over the JoinSet's handle list, per
its contract: Ready none iff the collection is empty; otherwise poll the
stored futures, and the first one that is ready is removed from the
collection and its output yielded; if none is ready the whole poll is
Pending and the (possibly updated) futures stay in the collection. -/
def pollNext (pollOne : H → Poll α × H) : List H → Poll (Option α) × List H
  | [] => (Poll.Ready none, [])
  | h :: rest =>
    match pollOne h with
    | (Poll.Ready a, _) => (Poll.Ready (some a), rest)
    | (Poll.Pending, h') =>
      match pollNext pollOne rest with
      | (Poll.Ready (some a), rest') => (Poll.Ready (some a), h' :: rest')
      | (_, _) => (Poll.Pending, h' :: rest)

/-- Model of JoinSet::join_next_with_id's single poll step: poll the handle
collection for the next finished task. -/
def JoinSet.join_next_with_id (w : Nat) (hs : List (Handle T)) :
    Poll (Option (Except JoinError (Nat × T))) × List (Handle T) :=
  pollNext (JoinHandleWithId.poll w) hs

/-- A handle is resolved once its task has been cancelled or its value is
sitting in the result slot; polling a resolved handle is always Ready. -/
def resolvedH (h : Handle T) : Prop :=
  h.1.cancelled = true ∨ h.2.isSome = true

instance (h : Handle T) : Decidable (resolvedH h) := by
  unfold resolvedH; infer_instance

/-- The outcome JoinHandleWithId::poll reports for a resolved handle:
cancellation takes precedence, else the stored value tagged with the id. -/
def handleOutcome (h : Handle T) : Except JoinError (Nat × T) :=
  if h.1.cancelled then
    Except.error { reason := JoinErrorReason.Cancelled, id := h.1.id }
  else
    match h.2 with
    | some v => Except.ok (h.1.id, v)
    | none => Except.error { reason := JoinErrorReason.Cancelled, id := h.1.id }

/-- Repeatedly call join_next_with_id, collecting the yielded outcomes, until
the set is empty, the poll is Pending, or the fuel runs out. -/
def joinDrain (w : Nat) : Nat → List (Handle T) → List (Except JoinError (Nat × T))
  | 0, _ => []
  | fuel + 1, hs =>
    match JoinSet.join_next_with_id w hs with
    | (Poll.Ready (some a), hs') => a :: joinDrain w fuel hs'
    | (_, _) => []

/-- Driver status inside the host scheduler: still scheduled with the wrapped
work in state f, or already returned Ready (the host never re-polls it). -/
inductive Drv (F : Type) where
  | running (f : F)
  | done
deriving DecidableEq, Repr

/-- Whole-task system state: the shared State, the shared result slot, and
the driver. -/
structure Sys (F T : Type) where
  st : State
  slot : Option T
  drv : Drv F
deriving DecidableEq, Repr

/-- One scheduling event: a poll of some JoinHandle clone (with its waker), a
host poll of the driver, or an abort from any handle. -/
inductive Step where
  | hpoll (w : Nat)
  | dpoll (w : Nat)
  | abort
deriving DecidableEq, Repr

/-- 1 if a JoinHandle poll outcome is a delivered success value, else 0. -/
def successCount : Poll (Except JoinError T) → Nat
  | Poll.Ready (Except.ok _) => 1
  | _ => 0

/-- Execute one scheduling event against the system state; the Nat counts
success deliveries by this event. -/
def stepRun (pf : F → F × Option T) (sys : Sys F T) : Step → Sys F T × Nat
  | Step.hpoll w =>
    let r := JoinHandle.poll sys.st sys.slot w
    ({ st := r.2.1, slot := r.2.2, drv := sys.drv }, successCount r.1)
  | Step.dpoll w =>
    match sys.drv with
    | Drv.done => (sys, 0)
    | Drv.running f =>
      let r := SpawnFuture.poll pf f sys.st sys.slot w
      ({ st := r.2.2.1, slot := r.2.2.2,
         drv := match r.1 with
           | Poll.Ready _ => Drv.done
           | Poll.Pending => Drv.running r.2.1 }, 0)
  | Step.abort => ({ sys with st := (State.cancel sys.st).1 }, 0)

/-- Run a whole trace of scheduling events, summing success deliveries. -/
def runTrace (pf : F → F × Option T) (sys : Sys F T) : List Step → Sys F T × Nat
  | [] => (sys, 0)
  | e :: rest =>
    ((runTrace pf (stepRun pf sys e).1 rest).1,
     (stepRun pf sys e).2 + (runTrace pf (stepRun pf sys e).1 rest).2)

/-- Potential: pending deliveries the system can still produce — one if the
driver may still write, one if an unconsumed value sits in the slot. -/
def pot (sys : Sys F T) : Nat :=
  (match sys.drv with | Drv.running _ => 1 | Drv.done => 0) +
  (match sys.slot with | some _ => 1 | none => 0)

end Polling

section MaybeFutureModel

variable {F α : Type}

/-- Mirror of the MaybeFuture enum in maybe_future.rs. -/
inductive MaybeFuture (F : Type) where
  | Some (fut : F)
  | None
deriving DecidableEq, Repr

/-- Mirror of MaybeFuture::set_none. -/
def MaybeFuture.set_none (_ : MaybeFuture F) : MaybeFuture F :=
  MaybeFuture.None

/-- Mirror of MaybeFuture::set_future. -/
def MaybeFuture.set_future (_ : MaybeFuture F) (fut : F) : MaybeFuture F :=
  MaybeFuture.Some fut

/-- Mirror of MaybeFuture::is_none. -/
def MaybeFuture.is_none : MaybeFuture F → Bool
  | MaybeFuture.Some _ => false
  | MaybeFuture.None => true

/-- Mirror of MaybeFuture::is_some. -/
def MaybeFuture.is_some : MaybeFuture F → Bool
  | MaybeFuture.Some _ => true
  | MaybeFuture.None => false

/-- Mirror of `impl Future for MaybeFuture`::poll.  `pf` is the inner
future's poll function (next state plus optional Ready value).  In the None
state the poll result is Pending; when the inner poll returns Ready the
state is replaced by None and the value returned. -/
def MaybeFuture.poll (pf : F → F × Option α) :
    MaybeFuture F → MaybeFuture F × Option α
  | MaybeFuture.Some f =>
    match pf f with
    | (_, some v) => (MaybeFuture.None, some v)
    | (f', none) => (MaybeFuture.Some f', none)
  | MaybeFuture.None => (MaybeFuture.None, none)

/-- The MaybeFuture state after one poll. -/
def MaybeFuture.pollState (pf : F → F × Option α) (mf : MaybeFuture F) :
    MaybeFuture F :=
  (MaybeFuture.poll pf mf).1

end MaybeFutureModel

/-
Theorems.  Helper lemmas first, then one theorem per claim (with witnesses
and counterexamples where required).
-/

theorem cancel_fst_cancelled (s : State) : (State.cancel s).1.cancelled = true := by
  rcases s with ⟨i, c, co, wh, ws⟩
  cases c <;> cases wh <;> cases ws <;> simp [State.cancel, State.wake]

theorem cancel_fst_completed (s : State) : (State.cancel s).1.completed = s.completed := by
  rcases s with ⟨i, c, co, wh, ws⟩
  cases c <;> cases wh <;> cases ws <;> simp [State.cancel, State.wake]

theorem cancel_fst_id (s : State) : (State.cancel s).1.id = s.id := by
  rcases s with ⟨i, c, co, wh, ws⟩
  cases c <;> cases wh <;> cases ws <;> simp [State.cancel, State.wake]

/-- C1: if the task's cancelled flag is set when a JoinHandle is polled, the
poll returns the cancelled outcome carrying the task's Id, for every result
slot content — even a value sitting unconsumed in the slot — because the
cancellation check happens before the result slot is consulted; the slot is
left as it was. -/
theorem joinHandle_poll_cancelled_precedence {T : Type} (s : State) (slot : Option T)
    (w : Nat) (h : s.cancelled = true) :
    JoinHandle.poll s slot w =
      (Poll.Ready (Except.error { reason := JoinErrorReason.Cancelled, id := s.id }),
       s, slot) := by
  simp [JoinHandle.poll, h]

theorem joinHandle_poll_cancelled_precedence_witness :
    JoinHandle.poll
        { id := 5, cancelled := true, completed := true,
          waker_handler := none, waker_spawn_fn := none } (some (42 : Nat)) 0 =
      (Poll.Ready (Except.error { reason := JoinErrorReason.Cancelled, id := 5 }),
       { id := 5, cancelled := true, completed := true,
         waker_handler := none, waker_spawn_fn := none }, some 42) :=
  joinHandle_poll_cancelled_precedence _ _ _ rfl

/-- C10: when a JoinHandle poll observes cancelled = true, it returns the
cancelled outcome without modifying the result slot or any TaskState field,
and its outcome does not depend on the slot's content (the slot is not
read). -/
theorem joinHandle_poll_cancelled_frame {T : Type} (s : State) (slot slot' : Option T)
    (w w' : Nat) (h : s.cancelled = true) :
    (JoinHandle.poll s slot w).2.1 = s ∧
    (JoinHandle.poll s slot w).2.2 = slot ∧
    (JoinHandle.poll s slot w).1 =
      Poll.Ready (Except.error { reason := JoinErrorReason.Cancelled, id := s.id }) ∧
    (JoinHandle.poll s slot w).1 = (JoinHandle.poll s slot' w').1 := by
  simp [JoinHandle.poll, h]

theorem joinHandle_poll_cancelled_frame_witness :
    (JoinHandle.poll
        { id := 7, cancelled := true, completed := false,
          waker_handler := some 3, waker_spawn_fn := none } (some (9 : Nat)) 0).2.1 =
      { id := 7, cancelled := true, completed := false,
        waker_handler := some 3, waker_spawn_fn := none } :=
  (joinHandle_poll_cancelled_frame _ (some 9) (some 11) 0 1 rfl).1

/-- C5: cancel() on a not-yet-cancelled state sets cancelled, clears and
wakes exactly the registered wake callbacks, and leaves id and completed
alone; a second cancel() on the result changes nothing and wakes nothing,
so cancelling twice is observably the same as cancelling once. -/
theorem state_cancel_idempotent (s : State) (h : s.cancelled = false) :
    (State.cancel s).1 =
      { s with cancelled := true, waker_handler := none, waker_spawn_fn := none } ∧
    (State.cancel s).2 = s.waker_handler.toList ++ s.waker_spawn_fn.toList ∧
    State.cancel (State.cancel s).1 = ((State.cancel s).1, []) := by
  rcases s with ⟨i, c, co, wh, ws⟩
  simp only at h
  subst h
  cases wh <;> cases ws <;> simp [State.cancel, State.wake]

theorem state_cancel_idempotent_witness :
    State.cancel (State.cancel
      { id := 1, cancelled := false, completed := false,
        waker_handler := some 7, waker_spawn_fn := some 8 }).1 =
      ((State.cancel
        { id := 1, cancelled := false, completed := false,
          waker_handler := some 7, waker_spawn_fn := some 8 }).1, []) :=
  (state_cancel_idempotent
    { id := 1, cancelled := false, completed := false,
      waker_handler := some 7, waker_spawn_fn := some 8 } rfl).2.2

/-- C8: the drop body of AbortOnDropHandle is exactly one JoinHandle::abort
call on the wrapped handle; after dropping, the task is cancelled, for every
state — in particular for a freshly spawned, never-polled handle, where the
drop cancels and wakes nothing (no waker was ever registered). -/
theorem abortOnDropHandle_drop_aborts (s : State) :
    AbortOnDropHandle.onDrop s = JoinHandle.abort s ∧
    (AbortOnDropHandle.onDrop s).1.cancelled = true ∧
    (∀ i, AbortOnDropHandle.onDrop (freshState i) =
      ({ freshState i with cancelled := true }, [])) := by
  refine ⟨rfl, ?_, fun i => rfl⟩
  exact cancel_fst_cancelled s

theorem maybeFuture_pollState_none_fixed {F α : Type} (pf : F → F × Option α) :
    MaybeFuture.pollState pf MaybeFuture.None = MaybeFuture.None := rfl

/-- C9: polling a MaybeFuture in the None state returns Pending; when the
inner future returns Ready v, the poll returns Ready v and resets the state
to None, so every subsequent poll (any number of iterations) without an
intervening set_future stays in None and returns Pending. -/
theorem maybeFuture_poll_resets {F α : Type} (pf : F → F × Option α) (f f' : F)
    (v : α) (n : Nat) (h : pf f = (f', some v)) :
    MaybeFuture.poll pf MaybeFuture.None = (MaybeFuture.None, none) ∧
    MaybeFuture.poll pf (MaybeFuture.Some f) = (MaybeFuture.None, some v) ∧
    (MaybeFuture.pollState pf)^[n] (MaybeFuture.poll pf (MaybeFuture.Some f)).1 =
      MaybeFuture.None ∧
    (MaybeFuture.poll pf
      ((MaybeFuture.pollState pf)^[n]
        (MaybeFuture.poll pf (MaybeFuture.Some f)).1)).2 = none := by
  have h2 : MaybeFuture.poll pf (MaybeFuture.Some f) = (MaybeFuture.None, some v) := by
    simp [MaybeFuture.poll, h]
  have h3 : (MaybeFuture.pollState pf)^[n]
      (MaybeFuture.poll pf (MaybeFuture.Some f)).1 = MaybeFuture.None := by
    rw [h2]
    exact Function.iterate_fixed (maybeFuture_pollState_none_fixed pf) n
  exact ⟨rfl, h2, h3, by rw [h3]; rfl⟩

theorem maybeFuture_poll_resets_witness :
    MaybeFuture.poll (fun f : Nat => (f, some (3 : Nat))) (MaybeFuture.Some 0) =
      (MaybeFuture.None, some 3) :=
  (maybeFuture_poll_resets (fun f : Nat => (f, some (3 : Nat))) 0 0 3 2 rfl).2.1

/-- C2 counterexample: spawn a fresh task (id 1), abort it, then let the
Driver poll it — the Driver processes the cancellation (the poll returns
Ready), yet AbortHandle::is_finished is still false afterwards, because the
cancelled branch of the Driver never sets the completed flag, contradicting
the claim that is_finished becomes true once the Driver has processed the
cancellation on its next poll. -/
theorem abortHandle_is_finished_counterexample :
    (SpawnFuture.poll (fun f : Nat => (f, some (0 : Nat))) 0
        (State.cancel (freshState 1)).1 none 0).1 = Poll.Ready () ∧
    AbortHandle.is_finished
      ((SpawnFuture.poll (fun f : Nat => (f, some (0 : Nat))) 0
        (State.cancel (freshState 1)).1 none 0).2.2.1) = false := by
  constructor <;> rfl

/-- C2 amended: AbortHandle::is_finished returns cancelled AND completed; on
a task that has not completed it is false immediately after abort() and it
remains false even after the Driver has processed the cancellation on its
next poll (the cancelled branch does not set completed); if the task had
already completed, is_finished is true immediately after abort(). -/
theorem abortHandle_is_finished_amended {T F : Type} (s : State) (pf : F → F × Option T)
    (f : F) (slot : Option T) (w : Nat) :
    AbortHandle.is_finished s = (s.cancelled && s.completed) ∧
    (s.completed = false →
      AbortHandle.is_finished (State.cancel s).1 = false ∧
      AbortHandle.is_finished
        (SpawnFuture.poll pf f (State.cancel s).1 slot w).2.2.1 = false) ∧
    (s.completed = true → AbortHandle.is_finished (State.cancel s).1 = true) := by
  have hc := cancel_fst_cancelled s
  have hco := cancel_fst_completed s
  refine ⟨rfl, fun h => ⟨?_, ?_⟩, fun h => ?_⟩
  · simp [AbortHandle.is_finished, hc, hco, h]
  · simp only [SpawnFuture.poll, hc, if_true]
    simp [AbortHandle.is_finished, hc, hco, h]
  · simp [AbortHandle.is_finished, hc, hco, h]

theorem abortHandle_is_finished_amended_witness :
    AbortHandle.is_finished (State.cancel (freshState 1)).1 = false :=
  ((abortHandle_is_finished_amended (freshState 1)
    (fun f : Nat => (f, some (0 : Nat))) 0 none 0).2.1 rfl).1

/-- C3 counterexample: two Driver polls with the same unit of work (ready to
yield 7) and the same empty slot, differing only in the cancelled flag: with
cancelled = true the Driver returns Ready without writing the slot, with
cancelled = false it writes some 7 — so the write does depend on the
cancellation flag. -/
theorem spawnFuture_write_counterexample :
    (SpawnFuture.poll (fun f : Nat => (f, some (7 : Nat))) 0
      { freshState 1 with cancelled := true } none 0).2.2.2 = none ∧
    (SpawnFuture.poll (fun f : Nat => (f, some (7 : Nat))) 0
      (freshState 1) none 0).2.2.2 = some 7 := by
  constructor <;> rfl

/-- C3 amended: the Driver writes into the ResultSlot only on a poll at
which the task is not cancelled: if cancelled is set, the Driver returns
Ready immediately, leaving the slot and the unit of work untouched; if not
cancelled and the work completes with v, the Driver writes some v into the
slot exactly then and marks the state completed; if not cancelled and the
work is pending, the slot is untouched and the driver waker registered. -/
theorem spawnFuture_write_amended {T F : Type} (pf : F → F × Option T) (f f' : F)
    (s : State) (slot : Option T) (v : T) (w : Nat) :
    (s.cancelled = true →
      SpawnFuture.poll pf f s slot w = (Poll.Ready (), f, s, slot)) ∧
    (s.cancelled = false → pf f = (f', some v) →
      SpawnFuture.poll pf f s slot w =
        (Poll.Ready (), f', (State.complete s).1, some v)) ∧
    (s.cancelled = false → pf f = (f', none) →
      SpawnFuture.poll pf f s slot w =
        (Poll.Pending, f', s.register_spawn_fn w, slot)) := by
  refine ⟨fun h => ?_, fun h hpf => ?_, fun h hpf => ?_⟩
  · simp [SpawnFuture.poll, h]
  · simp [SpawnFuture.poll, h, hpf]
  · simp [SpawnFuture.poll, h, hpf]

theorem spawnFuture_write_amended_witness :
    SpawnFuture.poll (fun f : Nat => (f, some (7 : Nat))) 0
      { freshState 1 with cancelled := true } none 0 =
      (Poll.Ready (), 0, { freshState 1 with cancelled := true }, none) :=
  (spawnFuture_write_amended (fun f : Nat => (f, some (7 : Nat))) 0 0
    { freshState 1 with cancelled := true } none 7 0).1 rfl

theorem spawnIds_strict_mono : ∀ (n c : Nat) (ids : List Nat),
    spawnIds c n = some ids → (∀ x ∈ ids, c < x) ∧ List.Pairwise (· < ·) ids := by
  intro n
  induction n with
  | zero =>
    intro c ids h
    simp only [spawnIds, Option.some.injEq] at h
    subst h
    simp
  | succ n ih =>
    intro c ids h
    simp only [spawnIds, JoinHandle.new, next_task_id] at h
    by_cases hc : c + 1 < U64_CARD
    · rw [if_pos hc] at h
      simp only [Option.map_some', freshState] at h
      rcases Option.map_eq_some'.mp h with ⟨tail, htail, hcons⟩
      subst hcons
      obtain ⟨hmem, hpw⟩ := ih (c + 1) tail htail
      refine ⟨?_, ?_⟩
      · intro x hx
        rcases List.mem_cons.mp hx with hx | hx
        · omega
        · have := hmem x hx
          omega
      · exact List.pairwise_cons.mpr ⟨hmem, hpw⟩
    · rw [if_neg hc] at h
      simp at h

/-- C4: for every run of N consecutive spawns whose id allocations all
succeed, the N returned TaskIds are pairwise distinct and strictly
increasing in spawn order. -/
theorem spawn_ids_distinct_increasing (c n : Nat) (ids : List Nat)
    (h : spawnIds c n = some ids) :
    List.Pairwise (· < ·) ids ∧ List.Pairwise (· ≠ ·) ids := by
  have hp := (spawnIds_strict_mono n c ids h).2
  exact ⟨hp, hp.imp fun hlt => Nat.ne_of_lt hlt⟩

theorem spawn_ids_distinct_increasing_witness :
    List.Pairwise (· < ·) [1, 2, 3] ∧ List.Pairwise (· ≠ ·) [1, 2, 3] :=
  spawn_ids_distinct_increasing 0 3 [1, 2, 3] (by decide)

theorem joinHandleWithId_poll_resolved {T : Type} (w : Nat) (h : Handle T)
    (hr : resolvedH h) :
    (JoinHandleWithId.poll w h).1 = Poll.Ready (handleOutcome h) := by
  rcases h with ⟨s, slot⟩
  by_cases hc : s.cancelled = true
  · simp [JoinHandleWithId.poll, JoinHandle.poll, handleOutcome, hc, Except.map]
  · rcases hr with hr | hr
    · exact absurd hr hc
    · rcases slot with _ | v
      · simp at hr
      · simp [JoinHandleWithId.poll, JoinHandle.poll, handleOutcome, hc, Except.map]

theorem join_next_resolved_cons {T : Type} (w : Nat) (h : Handle T)
    (rest : List (Handle T)) (hr : resolvedH h) :
    JoinSet.join_next_with_id w (h :: rest) =
      (Poll.Ready (some (handleOutcome h)), rest) := by
  have h1 := joinHandleWithId_poll_resolved w h hr
  unfold JoinSet.join_next_with_id
  simp only [pollNext]
  rcases hp : JoinHandleWithId.poll w h with ⟨p1, p2⟩
  rw [hp] at h1
  simp only at h1
  subst h1
  rfl

theorem join_next_ready_none_iff {T : Type} (w : Nat) (hs : List (Handle T)) :
    (JoinSet.join_next_with_id w hs).1 = Poll.Ready none ↔ hs = [] := by
  cases hs with
  | nil => simp [JoinSet.join_next_with_id, pollNext]
  | cons h rest =>
    constructor
    · intro hcontra
      exfalso
      simp only [JoinSet.join_next_with_id, pollNext] at hcontra
      split at hcontra
      · simp at hcontra
      · split at hcontra <;> simp_all
    · intro hcontra
      exact absurd hcontra (List.cons_ne_nil h rest)

/-- C6: a join_next_with_id poll returns None (Ready none) exactly when the
set is empty; and once every task in the set is resolved (cancelled or with
its value in the slot), draining the set yields each task's outcome exactly
once — the drained list is precisely the per-handle outcome of each set
element, cancellation taking precedence over a stored value. -/
theorem joinSet_join_next_spec {T : Type} (w : Nat) (hs : List (Handle T)) :
    ((JoinSet.join_next_with_id w hs).1 = Poll.Ready none ↔ hs = []) ∧
    ((∀ h ∈ hs, resolvedH h) →
      joinDrain w hs.length hs = hs.map handleOutcome) := by
  refine ⟨join_next_ready_none_iff w hs, ?_⟩
  induction hs with
  | nil => intro _; rfl
  | cons h rest ih =>
    intro hres
    have hcons := join_next_resolved_cons w h rest (hres h (List.mem_cons_self h rest))
    simp only [List.length_cons, joinDrain, hcons, List.map_cons]
    rw [ih fun x hx => hres x (List.mem_cons_of_mem h hx)]

theorem joinSet_join_next_spec_witness :
    joinDrain 0 2
      [({ id := 1, cancelled := true, completed := false,
          waker_handler := none, waker_spawn_fn := none }, (none : Option Nat)),
       ({ id := 2, cancelled := false, completed := true,
          waker_handler := none, waker_spawn_fn := none }, some 5)] =
      [Except.error { reason := JoinErrorReason.Cancelled, id := 1 },
       Except.ok (2, 5)] := by
  have h := (joinSet_join_next_spec 0
    [({ id := 1, cancelled := true, completed := false,
        waker_handler := none, waker_spawn_fn := none }, (none : Option Nat)),
     ({ id := 2, cancelled := false, completed := true,
        waker_handler := none, waker_spawn_fn := none }, some 5)]).2 (by decide)
  simpa [handleOutcome] using h

theorem stepRun_pot {T F : Type} (pf : F → F × Option T) (sys : Sys F T) (e : Step) :
    (stepRun pf sys e).2 + pot (stepRun pf sys e).1 ≤ pot sys := by
  rcases sys with ⟨s, slot, drv⟩
  cases e with
  | hpoll w =>
    cases drv <;> by_cases hc : s.cancelled = true <;> rcases slot with _ | v <;>
      simp [stepRun, JoinHandle.poll, hc, successCount, pot]
  | dpoll w =>
    cases drv with
    | done => simp [stepRun, pot]
    | running f =>
      by_cases hc : s.cancelled = true
      · rcases slot with _ | v <;> simp [stepRun, SpawnFuture.poll, hc, pot]
      · rcases hpf : pf f with ⟨f', r⟩
        rcases r with _ | v <;> rcases slot with _ | v' <;>
          simp [stepRun, SpawnFuture.poll, hc, hpf, pot]
  | abort => simp [stepRun, pot]

theorem runTrace_pot {T F : Type} (pf : F → F × Option T) (sys : Sys F T)
    (tr : List Step) :
    (runTrace pf sys tr).2 + pot (runTrace pf sys tr).1 ≤ pot sys := by
  induction tr generalizing sys with
  | nil => simp [runTrace]
  | cons e rest ih =>
    simp only [runTrace]
    have h1 := stepRun_pot pf sys e
    have h2 := ih (stepRun pf sys e).1
    omega

/-- C7: at-most-once result delivery — starting from a freshly spawned task
(empty slot, driver scheduled), any interleaving of JoinHandle polls from
any clones, driver polls, and aborts delivers a success outcome at most
once across the whole trace. -/
theorem result_delivered_at_most_once {T F : Type} (pf : F → F × Option T)
    (f0 : F) (i : Nat) (tr : List Step) :
    (runTrace pf { st := freshState i, slot := none, drv := Drv.running f0 } tr).2 ≤ 1 := by
  have h := runTrace_pot pf { st := freshState i, slot := none, drv := Drv.running f0 } tr
  have h0 : pot { st := freshState i, slot := (none : Option T), drv := Drv.running f0 } = 1 := rfl
  omega

end N0F
